import Mathlib

/-!
Shallow embedding of the working-day arithmetic engine of `rpa-dates`
(`src/src/service.py`, class `DateService`), together with theorems
settling the specification claims about it.

Dates are embedded as proleptic-Gregorian day numbers (`Int`), the value
Python's `date.toordinal()` returns (0001-01-01 is day 1); Python's
`timedelta(days=1)` arithmetic is `(+ 1)` on this representation and
`date.weekday()` is `(ord - 1) % 7` (Monday = 0).  The holiday provider,
the `strptime` parser and the configured default format are external
collaborators of the engine and are passed in as parameters, exactly as
the class receives them via its constructor/config.  The `while` loop of
`add_working_days` is embedded with an explicit fuel argument; its
termination is settled as its own theorem.
-/

namespace DateService

/-- Python `date.weekday()` on the ordinal-day embedding: Monday = 0 … Sunday = 6. -/
def weekday (ord : Int) : Int :=
  (ord - 1) % 7

/-- The working-day test of the loop body in `add_working_days`
(`service.py` line 246): `current.weekday() < 5 and current.date() not in holidays`. -/
def isWorking (holidays : Finset Int) (d : Int) : Prop :=
  weekday d < 5 ∧ d ∉ holidays

instance (holidays : Finset Int) (d : Int) : Decidable (isWorking holidays d) := by
  unfold isWorking; infer_instance

/-- The `while days_remaining > 0` loop of `add_working_days`
(`service.py` lines 244-248), with an explicit fuel bound on the number of
calendar days traversed; `none` means the fuel ran out before the loop
finished (termination is proved separately). -/
def stepLoop (holidays : Finset Int) (step : Int) : Nat → Nat → Int → Option Int
  | 0, remaining, current => if remaining = 0 then some current else none
  | fuel + 1, remaining, current =>
    if remaining = 0 then some current
    else
      let c := current + step
      if isWorking holidays c then stepLoop holidays step fuel (remaining - 1) c
      else stepLoop holidays step fuel remaining c

/-- Fuel budget used when invoking `stepLoop`: enough calendar days that the
loop of the source (which has no bound) always finishes within it when the
holiday set is empty, and comfortably sized otherwise. -/
def fuelFor (days : Int) (holidays : Finset Int) : Nat :=
  7 * (days.natAbs + holidays.card + 2)

/-- Count `n` consecutive integers upward from `a`. -/
def intRangeAux (a : Int) : Nat → List Int
  | 0 => []
  | n + 1 => a :: intRangeAux (a + 1) n

/-- Python `list(range(a, b))` on integers: the `b - a` consecutive integers
from `a` (empty when `b ≤ a`). -/
def intRange (a b : Int) : List Int :=
  intRangeAux a (b - a).toNat

/-- The year list of `add_working_days` (`service.py` line 237):
`list(range(dt.year, dt.year + (days // 200) + 2))`; `Int` division in Lean is
floor division for a positive divisor, as `//` is in Python. -/
def requiredYears (refYear : Int) (days : Int) : List Int :=
  intRange refYear (refYear + days / 200 + 2)

/-- The shapes a `DateInput` value can take at the type dispatch of
`normalize` (`service.py` lines 36-48): `None`, a `datetime`, a `date`, a
string, or a value of any unsupported type (identified by its type name). -/
inductive DateInput where
  | null : DateInput
  | datetime (ord : Int) : DateInput
  | date (ord : Int) : DateInput
  | str (s : String) : DateInput
  | unsupported (typeName : String) : DateInput
deriving DecidableEq

/-- The two failure modes of `normalize`: `DateOperationError` on a parse
failure and `TypeError` on an unsupported input type. -/
inductive NormError where
  | dateOperationError (msg : String) : NormError
  | typeError (msg : String) : NormError
deriving DecidableEq

/-- A single-quote character as a string, used in the literal error message
of `normalize`. -/
def sq : String :=
  String.mk [Char.ofNat 39]

/-- The format selected by `format = input_format or self.config.default_input_format`
(`service.py` line 43): Python `or` falls through on `None` and on the empty
string alike. -/
def chosenFormat (inputFormat : Option String) (defaultFormat : String) : String :=
  match inputFormat with
  | some f => if f = "" then defaultFormat else f
  | none => defaultFormat

/-- The message of the `DateOperationError` raised by `normalize`
(`service.py` line 47): `f"Could not parse '{date_input}' with format '{format}'"`. -/
def parseErrMsg (s format : String) : String :=
  "Could not parse " ++ sq ++ s ++ sq ++ " with format " ++ sq ++ format ++ sq

/-- `DateService.normalize` (`service.py` lines 21-48).  `parse` stands for
`datetime.strptime` (returning `none` where Python raises `ValueError`),
`now` for `datetime.now()`, and `defaultFormat` for
`config.default_input_format`; a `datetime` is returned as is and a `date`
is widened via `datetime.combine` (a no-op on the day-number embedding). -/
def normalize (parse : String → String → Option Int) (now : Int)
    (defaultFormat : String) (input : DateInput) (inputFormat : Option String) :
    Except NormError Int :=
  match input with
  | .null => .ok now
  | .datetime o => .ok o
  | .date o => .ok o
  | .str s =>
    let format := chosenFormat inputFormat defaultFormat
    match parse s format with
    | some o => .ok o
    | none => .error (.dateOperationError (parseErrMsg s format))
  | .unsupported t => .error (.typeError ("Unsupported type: " ++ t))

/-- Failure modes of the composed `add_working_days` pipeline: the two
`normalize` errors, a provider error propagated unchanged, and the fuel
artifact of the loop embedding. -/
inductive EngineError (ε : Type) where
  | dateOperationError (msg : String) : EngineError ε
  | typeError (msg : String) : EngineError ε
  | providerError (e : ε) : EngineError ε
  | fuelExhausted : EngineError ε
deriving DecidableEq

instance {ε α : Type} [DecidableEq ε] [DecidableEq α] : DecidableEq (Except ε α) := fun x y =>
  match x, y with
  | .ok a, .ok b =>
    if h : a = b then .isTrue (by rw [h]) else .isFalse (by simp [h])
  | .error a, .error b =>
    if h : a = b then .isTrue (by rw [h]) else .isFalse (by simp [h])
  | .ok _, .error _ => .isFalse (by simp)
  | .error _, .ok _ => .isFalse (by simp)

/-- Injection of a `normalize` outcome into the engine's error type. -/
def liftNorm {ε : Type} : Except NormError Int → Except (EngineError ε) Int
  | .ok o => .ok o
  | .error (.dateOperationError m) => .error (.dateOperationError m)
  | .error (.typeError m) => .error (.typeError m)

/-- The provider loop of `_get_holiday_set` (`service.py` lines 216-219):
one `get_holidays(year, country_code)` call per listed year in order,
unioning results; the second component records the years for which the
provider was actually invoked.  An uncaught provider error stops the loop
and propagates. -/
def fetchYears {ε : Type} (provider : Int → String → Except ε (Finset Int))
    (c : String) : List Int → Except ε (Finset Int) × List Int
  | [] => (.ok ∅, [])
  | y :: ys =>
    match provider y c with
    | .error e => (.error e, [y])
    | .ok hs =>
      match fetchYears provider c ys with
      | (.error e, calls) => (.error e, y :: calls)
      | (.ok acc, calls) => (.ok (hs ∪ acc), y :: calls)

/-- `DateService._get_holiday_set` (`service.py` lines 202-219), with the
provider-call trace: `if not country_code: return set()` is the falsy test,
true for an absent and for an empty country code. -/
def get_holiday_set {ε : Type} (provider : Int → String → Except ε (Finset Int))
    (years : List Int) (cc : Option String) : Except ε (Finset Int) × List Int :=
  match cc with
  | none => (.ok ∅, [])
  | some c => if c = "" then (.ok ∅, []) else fetchYears provider c years

/-- Day number of a proleptic-Gregorian calendar date, the value of Python's
`date(y, m, d).toordinal()` (0001-01-01 is day 1); the era-based civil
calendar computation. -/
def toOrdinal (y m d : Int) : Int :=
  let yy := if m ≤ 2 then y - 1 else y
  let era := (if yy ≥ 0 then yy else yy - 399) / 400
  let yoe := yy - era * 400
  let doy := (153 * (m + (if m > 2 then -3 else 9)) + 2) / 5 + d - 1
  let doe := yoe * 365 + yoe / 4 - yoe / 100 + doy
  era * 146097 + doe - 719468 + 719163

/-- The calendar year a day number falls in: Python's `dt.year`, used by
`add_working_days` as the lower bound of the year span (`service.py` line 237). -/
def yearOf (ord : Int) : Int :=
  let z := ord - 719163 + 719468
  let era := (if z ≥ 0 then z else z - 146096) / 146097
  let doe := z - era * 146097
  let yoe := (doe - doe / 1460 + doe / 36524 - doe / 146096) / 365
  let y := yoe + era * 400
  let doy := doe - (365 * yoe + yoe / 4 - yoe / 100)
  let mp := (5 * doy + 2) / 153
  let m := mp + (if mp < 10 then 3 else -9)
  if m ≤ 2 then y + 1 else y

/-- `DateService.add_working_days` (`service.py` lines 221-248), composed of
`normalize`, the year-span estimate, `_get_holiday_set` and the stepping
loop; returns the outcome together with the provider-call trace. -/
def add_working_days {ε : Type} (provider : Int → String → Except ε (Finset Int))
    (parse : String → String → Option Int) (now : Int) (defaultFormat : String)
    (input : DateInput) (days : Int) (cc : Option String) :
    Except (EngineError ε) Int × List Int :=
  if days = 0 then
    (liftNorm (normalize parse now defaultFormat input none), [])
  else
    match normalize parse now defaultFormat input none with
    | .error e => (liftNorm (.error e), [])
    | .ok dt =>
      let fetched := get_holiday_set provider (requiredYears (yearOf dt) days) cc
      match fetched.1 with
      | .error e => (.error (.providerError e), fetched.2)
      | .ok holidays =>
        let step : Int := if days > 0 then 1 else -1
        match stepLoop holidays step (fuelFor days holidays) days.natAbs dt with
        | some r => (.ok r, fetched.2)
        | none => (.error .fuelExhausted, fetched.2)

/-- The next working day strictly after `d` when the holiday set is empty,
in closed form: skip to Monday from the weekend, otherwise the next calendar day. -/
def nextW (d : Int) : Int :=
  if d % 7 = 5 then d + 3 else if d % 7 = 6 then d + 2 else d + 1

/-- The last working day strictly before `d` when the holiday set is empty,
in closed form. -/
def prevW (d : Int) : Int :=
  if (d - 2) % 7 = 6 then d - 3 else if (d - 2) % 7 = 5 then d - 2 else d - 1

/-- Iterate `nextW`. -/
def nextWIter : Nat → Int → Int
  | 0, d => d
  | k + 1, d => nextWIter k (nextW d)

/-- Iterate `prevW`. -/
def prevWIter : Nat → Int → Int
  | 0, d => d
  | k + 1, d => prevWIter k (prevW d)

/-- Test-double provider returning no holidays for every year (the
`mock_provider` of the repository's test fixtures). -/
def cpU : Int → String → Except Unit (Finset Int) := fun _ _ => .ok ∅

/-- Test-double parser that fails on every string. -/
def pnone : String → String → Option Int := fun _ _ => none

/-- Test-double provider failing on year 2025 and returning no holidays
on every other year. -/
def cpFail : Int → String → Except String (Finset Int) := fun y _ =>
  if y = 2025 then .error "boom" else .ok ∅

end DateService

namespace DateService

/-! ### Basic facts about the stepping loop -/

lemma isWorking_empty (d : Int) : isWorking ∅ d ↔ weekday d < 5 := by
  simp [isWorking]

lemma stepLoop_rem_zero (H : Finset Int) (s : Int) (f : Nat) (cur : Int) :
    stepLoop H s f 0 cur = some cur := by
  cases f <;> simp [stepLoop]

lemma stepLoop_some_gt (H : Finset Int) (s : Int) (hs : 0 < s) :
    ∀ (f rem : Nat) (cur res : Int),
      stepLoop H s f rem cur = some res → 1 ≤ rem → cur < res := by
  intro f
  induction f with
  | zero =>
    intro rem cur res h hrem
    simp only [stepLoop] at h
    rw [if_neg (by omega)] at h
    exact absurd h (by simp)
  | succ f ih =>
    intro rem cur res h hrem
    simp only [stepLoop] at h
    rw [if_neg (by omega)] at h
    by_cases hw : isWorking H (cur + s)
    · rw [if_pos hw] at h
      rcases Nat.eq_or_lt_of_le hrem with h1 | h1
      · rw [← h1] at h
        rw [stepLoop_rem_zero] at h
        have := Option.some.inj h
        omega
      · have := ih (rem - 1) (cur + s) res h (by omega)
        omega
    · rw [if_neg hw] at h
      have := ih rem (cur + s) res h hrem
      omega

lemma stepLoop_some_lt (H : Finset Int) (s : Int) (hs : s < 0) :
    ∀ (f rem : Nat) (cur res : Int),
      stepLoop H s f rem cur = some res → 1 ≤ rem → res < cur := by
  intro f
  induction f with
  | zero =>
    intro rem cur res h hrem
    simp only [stepLoop] at h
    rw [if_neg (by omega)] at h
    exact absurd h (by simp)
  | succ f ih =>
    intro rem cur res h hrem
    simp only [stepLoop] at h
    rw [if_neg (by omega)] at h
    by_cases hw : isWorking H (cur + s)
    · rw [if_pos hw] at h
      rcases Nat.eq_or_lt_of_le hrem with h1 | h1
      · rw [← h1] at h
        rw [stepLoop_rem_zero] at h
        have := Option.some.inj h
        omega
      · have := ih (rem - 1) (cur + s) res h (by omega)
        omega
    · rw [if_neg hw] at h
      have := ih rem (cur + s) res h hrem
      omega

lemma stepLoop_some_working (H : Finset Int) (s : Int) :
    ∀ (f rem : Nat) (cur res : Int),
      stepLoop H s f rem cur = some res → 1 ≤ rem → isWorking H res := by
  intro f
  induction f with
  | zero =>
    intro rem cur res h hrem
    simp only [stepLoop] at h
    rw [if_neg (by omega)] at h
    exact absurd h (by simp)
  | succ f ih =>
    intro rem cur res h hrem
    simp only [stepLoop] at h
    rw [if_neg (by omega)] at h
    by_cases hw : isWorking H (cur + s)
    · rw [if_pos hw] at h
      rcases Nat.eq_or_lt_of_le hrem with h1 | h1
      · rw [← h1] at h
        rw [stepLoop_rem_zero] at h
        rwa [← Option.some.inj h]
      · exact ih (rem - 1) (cur + s) res h (by omega)
    · rw [if_neg hw] at h
      exact ih rem (cur + s) res h hrem

/-! ### The loop on an empty holiday set, in closed form -/

lemma nextW_weekday (d : Int) : weekday (nextW d) < 5 := by
  unfold nextW weekday
  split_ifs <;> omega

lemma prevW_weekday (d : Int) : weekday (prevW d) < 5 := by
  unfold prevW weekday
  split_ifs <;> omega

lemma prevW_nextW (d : Int) (h : weekday d < 5) : prevW (nextW d) = d := by
  unfold weekday at h
  unfold nextW prevW
  split_ifs <;> omega

lemma nextW_prevW (d : Int) (h : weekday d < 5) : nextW (prevW d) = d := by
  unfold weekday at h
  unfold nextW prevW
  split_ifs <;> omega

lemma nextWIter_succ (k : Nat) (d : Int) :
    nextWIter (k + 1) d = nextW (nextWIter k d) := by
  induction k generalizing d with
  | zero => rfl
  | succ k ih =>
    show nextWIter (k + 1) (nextW d) = _
    rw [ih (nextW d)]
    rfl

lemma prevWIter_succ (k : Nat) (d : Int) :
    prevWIter (k + 1) d = prevW (prevWIter k d) := by
  induction k generalizing d with
  | zero => rfl
  | succ k ih =>
    show prevWIter (k + 1) (prevW d) = _
    rw [ih (prevW d)]
    rfl

lemma nextWIter_weekday (k : Nat) (d : Int) (h : weekday d < 5) :
    weekday (nextWIter k d) < 5 := by
  cases k with
  | zero => exact h
  | succ k => rw [nextWIter_succ]; exact nextW_weekday _

lemma prevWIter_weekday (k : Nat) (d : Int) (h : weekday d < 5) :
    weekday (prevWIter k d) < 5 := by
  cases k with
  | zero => exact h
  | succ k => rw [prevWIter_succ]; exact prevW_weekday _

lemma prevWIter_nextWIter (d : Int) (h : weekday d < 5) :
    ∀ k, prevWIter k (nextWIter k d) = d := by
  intro k
  induction k with
  | zero => rfl
  | succ k ih =>
    rw [nextWIter_succ]
    show prevWIter k (prevW (nextW (nextWIter k d))) = d
    rw [prevW_nextW _ (nextWIter_weekday k d h)]
    exact ih

lemma nextWIter_prevWIter (d : Int) (h : weekday d < 5) :
    ∀ k, nextWIter k (prevWIter k d) = d := by
  intro k
  induction k with
  | zero => rfl
  | succ k ih =>
    rw [prevWIter_succ]
    show nextWIter k (nextW (prevW (prevWIter k d))) = d
    rw [nextW_prevW _ (prevWIter_weekday k d h)]
    exact ih

lemma stepLoop_skip (H : Finset Int) (s : Int) (f rem : Nat) (cur : Int)
    (hrem : ¬ rem = 0) (hw : ¬ isWorking H (cur + s)) :
    stepLoop H s (f + 1) rem cur = stepLoop H s f rem (cur + s) := by
  simp only [stepLoop]
  rw [if_neg hrem, if_neg hw]

lemma stepLoop_count (H : Finset Int) (s : Int) (f rem : Nat) (cur : Int)
    (hw : isWorking H (cur + s)) :
    stepLoop H s (f + 1) (rem + 1) cur = stepLoop H s f rem (cur + s) := by
  simp only [stepLoop]
  rw [if_neg (by omega), if_pos hw]
  simp

lemma stepLoop_empty_pos :
    ∀ (r : Nat) (cur : Int) (f : Nat), 7 * r ≤ f →
      stepLoop ∅ 1 f r cur = some (nextWIter r cur) := by
  intro r
  induction r with
  | zero => intro cur f _; exact stepLoop_rem_zero _ _ _ _
  | succ r ih =>
    intro cur f hf
    have hcur : cur % 7 ≤ 4 ∨ cur % 7 = 5 ∨ cur % 7 = 6 := by omega
    rcases hcur with h | h | h
    · obtain ⟨g, rfl⟩ : ∃ g, f = g + 1 := ⟨f - 1, by omega⟩
      have hw : isWorking ∅ (cur + 1) := by
        rw [isWorking_empty]; unfold weekday; omega
      have hrw : nextWIter (r + 1) cur = nextWIter r (cur + 1) := by
        show nextWIter r (nextW cur) = _
        have : nextW cur = cur + 1 := by unfold nextW; split_ifs <;> omega
        rw [this]
      rw [hrw, stepLoop_count ∅ 1 g r cur hw]
      exact ih (cur + 1) g (by omega)
    · obtain ⟨g, rfl⟩ : ∃ g, f = g + 1 + 1 + 1 := ⟨f - 3, by omega⟩
      have h1 : ¬ isWorking ∅ (cur + 1) := by
        rw [isWorking_empty]; unfold weekday; omega
      have h2 : ¬ isWorking ∅ (cur + 1 + 1) := by
        rw [isWorking_empty]; unfold weekday; omega
      have h3 : isWorking ∅ (cur + 1 + 1 + 1) := by
        rw [isWorking_empty]; unfold weekday; omega
      have hrw : nextWIter (r + 1) cur = nextWIter r (cur + 1 + 1 + 1) := by
        show nextWIter r (nextW cur) = _
        have : nextW cur = cur + 1 + 1 + 1 := by unfold nextW; split_ifs <;> omega
        rw [this]
      rw [hrw, stepLoop_skip ∅ 1 (g + 1 + 1) (r + 1) cur (by omega) h1,
        stepLoop_skip ∅ 1 (g + 1) (r + 1) (cur + 1) (by omega) h2,
        stepLoop_count ∅ 1 g r (cur + 1 + 1) h3]
      exact ih (cur + 1 + 1 + 1) g (by omega)
    · obtain ⟨g, rfl⟩ : ∃ g, f = g + 1 + 1 := ⟨f - 2, by omega⟩
      have h1 : ¬ isWorking ∅ (cur + 1) := by
        rw [isWorking_empty]; unfold weekday; omega
      have h2 : isWorking ∅ (cur + 1 + 1) := by
        rw [isWorking_empty]; unfold weekday; omega
      have hrw : nextWIter (r + 1) cur = nextWIter r (cur + 1 + 1) := by
        show nextWIter r (nextW cur) = _
        have : nextW cur = cur + 1 + 1 := by unfold nextW; split_ifs <;> omega
        rw [this]
      rw [hrw, stepLoop_skip ∅ 1 (g + 1) (r + 1) cur (by omega) h1,
        stepLoop_count ∅ 1 g r (cur + 1) h2]
      exact ih (cur + 1 + 1) g (by omega)

lemma stepLoop_empty_neg :
    ∀ (r : Nat) (cur : Int) (f : Nat), 7 * r ≤ f →
      stepLoop ∅ (-1) f r cur = some (prevWIter r cur) := by
  intro r
  induction r with
  | zero => intro cur f _; exact stepLoop_rem_zero _ _ _ _
  | succ r ih =>
    intro cur f hf
    have hcur : (cur - 2) % 7 ≤ 4 ∨ (cur - 2) % 7 = 5 ∨ (cur - 2) % 7 = 6 := by omega
    rcases hcur with h | h | h
    · obtain ⟨g, rfl⟩ : ∃ g, f = g + 1 := ⟨f - 1, by omega⟩
      have hw : isWorking ∅ (cur + -1) := by
        rw [isWorking_empty]; unfold weekday; omega
      have hrw : prevWIter (r + 1) cur = prevWIter r (cur + -1) := by
        show prevWIter r (prevW cur) = _
        have : prevW cur = cur + -1 := by unfold prevW; split_ifs <;> omega
        rw [this]
      rw [hrw, stepLoop_count ∅ (-1) g r cur hw]
      exact ih (cur + -1) g (by omega)
    · obtain ⟨g, rfl⟩ : ∃ g, f = g + 1 + 1 := ⟨f - 2, by omega⟩
      have h1 : ¬ isWorking ∅ (cur + -1) := by
        rw [isWorking_empty]; unfold weekday; omega
      have h2 : isWorking ∅ (cur + -1 + -1) := by
        rw [isWorking_empty]; unfold weekday; omega
      have hrw : prevWIter (r + 1) cur = prevWIter r (cur + -1 + -1) := by
        show prevWIter r (prevW cur) = _
        have : prevW cur = cur + -1 + -1 := by unfold prevW; split_ifs <;> omega
        rw [this]
      rw [hrw, stepLoop_skip ∅ (-1) (g + 1) (r + 1) cur (by omega) h1,
        stepLoop_count ∅ (-1) g r (cur + -1) h2]
      exact ih (cur + -1 + -1) g (by omega)
    · obtain ⟨g, rfl⟩ : ∃ g, f = g + 1 + 1 + 1 := ⟨f - 3, by omega⟩
      have h1 : ¬ isWorking ∅ (cur + -1) := by
        rw [isWorking_empty]; unfold weekday; omega
      have h2 : ¬ isWorking ∅ (cur + -1 + -1) := by
        rw [isWorking_empty]; unfold weekday; omega
      have h3 : isWorking ∅ (cur + -1 + -1 + -1) := by
        rw [isWorking_empty]; unfold weekday; omega
      have hrw : prevWIter (r + 1) cur = prevWIter r (cur + -1 + -1 + -1) := by
        show prevWIter r (prevW cur) = _
        have : prevW cur = cur + -1 + -1 + -1 := by unfold prevW; split_ifs <;> omega
        rw [this]
      rw [hrw, stepLoop_skip ∅ (-1) (g + 1 + 1) (r + 1) cur (by omega) h1,
        stepLoop_skip ∅ (-1) (g + 1) (r + 1) (cur + -1) (by omega) h2,
        stepLoop_count ∅ (-1) g r (cur + -1 + -1) h3]
      exact ih (cur + -1 + -1 + -1) g (by omega)

lemma awd_none_pos {ε : Type} (provider : Int → String → Except ε (Finset Int))
    (parse : String → String → Option Int) (now : Int) (dF : String)
    (dt n : Int) (hn : 0 < n) :
    add_working_days provider parse now dF (.datetime dt) n none
      = (.ok (nextWIter n.natAbs dt), []) := by
  unfold add_working_days
  rw [if_neg (by omega : ¬ n = 0)]
  simp only [normalize, get_holiday_set]
  rw [if_pos hn]
  rw [stepLoop_empty_pos n.natAbs dt (fuelFor n ∅)
    (by unfold fuelFor; simp)]

lemma awd_none_neg {ε : Type} (provider : Int → String → Except ε (Finset Int))
    (parse : String → String → Option Int) (now : Int) (dF : String)
    (dt n : Int) (hn : n < 0) :
    add_working_days provider parse now dF (.datetime dt) n none
      = (.ok (prevWIter n.natAbs dt), []) := by
  unfold add_working_days
  rw [if_neg (by omega : ¬ n = 0)]
  simp only [normalize, get_holiday_set]
  rw [if_neg (by omega : ¬ 0 < n)]
  rw [stepLoop_empty_neg n.natAbs dt (fuelFor n ∅)
    (by unfold fuelFor; simp)]

/-! ### Facts about the year span and the provider loop -/

lemma intRangeAux_mem : ∀ (n : Nat) (a y : Int),
    y ∈ intRangeAux a n ↔ a ≤ y ∧ y < a + n := by
  intro n
  induction n with
  | zero => intro a y; simp [intRangeAux]
  | succ n ih =>
    intro a y
    simp only [intRangeAux, List.mem_cons, ih (a + 1) y]
    omega

lemma intRange_mem (a b y : Int) : y ∈ intRange a b ↔ a ≤ y ∧ y < b := by
  unfold intRange
  rw [intRangeAux_mem]
  omega

lemma intRangeAux_nodup : ∀ (n : Nat) (a : Int), (intRangeAux a n).Nodup := by
  intro n
  induction n with
  | zero => intro a; simp [intRangeAux]
  | succ n ih =>
    intro a
    refine List.nodup_cons.2 ⟨?_, ih (a + 1)⟩
    rw [intRangeAux_mem]
    omega

lemma intRange_nodup (a b : Int) : (intRange a b).Nodup :=
  intRangeAux_nodup _ _

lemma fetchYears_ok {ε : Type} (provider : Int → String → Except ε (Finset Int))
    (c : String) :
    ∀ years : List Int, (∀ y ∈ years, ∃ hs, provider y c = .ok hs) →
      ∃ H, fetchYears provider c years = (.ok H, years) := by
  intro years
  induction years with
  | nil => intro _; exact ⟨∅, rfl⟩
  | cons y ys ih =>
    intro hall
    obtain ⟨hs, hy⟩ := hall y (List.mem_cons_self y ys)
    obtain ⟨H, hH⟩ := ih (fun z hz => hall z (List.mem_cons_of_mem y hz))
    refine ⟨hs ∪ H, ?_⟩
    unfold fetchYears
    rw [hy, hH]

lemma fetchYears_err {ε : Type} (provider : Int → String → Except ε (Finset Int))
    (c : String) (y0 : Int) (e : ε) (post : List Int) (herr : provider y0 c = .error e) :
    ∀ pre : List Int, (∀ y ∈ pre, ∃ hs, provider y c = .ok hs) →
      fetchYears provider c (pre ++ y0 :: post) = (.error e, pre ++ [y0]) := by
  intro pre
  induction pre with
  | nil =>
    intro _
    show fetchYears provider c (y0 :: post) = _
    unfold fetchYears
    rw [herr]
    rfl
  | cons p ps ih =>
    intro hall
    obtain ⟨hs, hp⟩ := hall p (List.mem_cons_self p ps)
    have hrest := ih (fun z hz => hall z (List.mem_cons_of_mem p hz))
    show fetchYears provider c (p :: (ps ++ y0 :: post)) = _
    unfold fetchYears
    rw [hp, hrest]
    rfl

lemma awd_trace {ε : Type} (provider : Int → String → Except ε (Finset Int))
    (parse : String → String → Option Int) (now : Int) (dF : String)
    (dt days : Int) (c : String) (hc : ¬ c = "") (hdays : ¬ days = 0)
    (hall : ∀ y ∈ requiredYears (yearOf dt) days, ∃ hs, provider y c = .ok hs) :
    ∃ H, fetchYears provider c (requiredYears (yearOf dt) days)
          = (.ok H, requiredYears (yearOf dt) days) ∧
      (add_working_days provider parse now dF (.datetime dt) days (some c)).2
        = requiredYears (yearOf dt) days := by
  obtain ⟨H, hH⟩ := fetchYears_ok provider c _ hall
  refine ⟨H, hH, ?_⟩
  unfold add_working_days
  rw [if_neg hdays]
  simp only [normalize, get_holiday_set]
  rw [if_neg hc, hH]
  simp only []
  cases stepLoop H (if days > 0 then 1 else -1) (fuelFor days H) days.natAbs dt <;> rfl

/-! ### Termination of the stepping loop -/

lemma exists_working_fwd (H : Finset Int) (cur : Int) :
    ∃ k : Nat, isWorking H (cur + ((k : Int) + 1)) := by
  obtain ⟨B, hB⟩ := Finset.exists_le H
  set t := max B cur with ht
  set d := t + 1 + (1 - (t + 1)) % 7 with hd
  have hub : 0 ≤ (1 - (t + 1)) % 7 := Int.emod_nonneg _ (by norm_num)
  have hlt : (1 - (t + 1)) % 7 < 7 := Int.emod_lt_of_pos _ (by norm_num)
  have htle : B ≤ t := le_max_left _ _
  have hcle : cur ≤ t := le_max_right _ _
  refine ⟨(d - cur - 1).toNat, ?_, ?_⟩
  · unfold weekday
    omega
  · intro hmem
    have := hB _ hmem
    omega

lemma exists_working_bwd (H : Finset Int) (cur : Int) :
    ∃ k : Nat, isWorking H (cur - ((k : Int) + 1)) := by
  obtain ⟨B, hB0⟩ := Finset.exists_le (H.image (fun h => -h))
  have hB : ∀ h ∈ H, -B ≤ h := by
    intro h hh
    have := hB0 (-h) (Finset.mem_image_of_mem _ hh)
    omega
  set t := min (-B) cur with ht
  set d := (t - 1) - (t - 2) % 7 with hd
  have hub : 0 ≤ (t - 2) % 7 := Int.emod_nonneg _ (by norm_num)
  have hlt : (t - 2) % 7 < 7 := Int.emod_lt_of_pos _ (by norm_num)
  have htle : t ≤ -B := min_le_left _ _
  have hcle : t ≤ cur := min_le_right _ _
  refine ⟨(cur - d - 1).toNat, ?_, ?_⟩
  · unfold weekday
    omega
  · intro hmem
    have := hB _ hmem
    omega

lemma stepLoop_total_aux (H : Finset Int) (s : Int)
    (hstep : ∀ cur : Int, ∃ k : Nat, isWorking H (cur + s * ((k : Int) + 1))) :
    ∀ (r : Nat) (cur : Int), ∃ f res, stepLoop H s f r cur = some res := by
  intro r
  induction r with
  | zero => intro cur; exact ⟨0, cur, stepLoop_rem_zero H s 0 cur⟩
  | succ r ih =>
    have aux : ∀ (k : Nat) (cur : Int), isWorking H (cur + s * ((k : Int) + 1)) →
        ∃ f res, stepLoop H s f (r + 1) cur = some res := by
      intro k
      induction k with
      | zero =>
        intro cur hw
        obtain ⟨f, res, hf⟩ := ih (cur + s)
        refine ⟨f + 1, res, ?_⟩
        have hw1 : isWorking H (cur + s) := by
          have he : cur + s * (((0 : Nat) : Int) + 1) = cur + s := by push_cast; ring
          rwa [he] at hw
        rw [stepLoop_count H s f r cur hw1]
        exact hf
      | succ k ihk =>
        intro cur hw
        by_cases hw1 : isWorking H (cur + s)
        · obtain ⟨f, res, hf⟩ := ih (cur + s)
          refine ⟨f + 1, res, ?_⟩
          rw [stepLoop_count H s f r cur hw1]
          exact hf
        · have hw2 : isWorking H ((cur + s) + s * ((k : Int) + 1)) := by
            have he : (cur + s) + s * ((k : Int) + 1)
                = cur + s * (((k + 1 : Nat) : Int) + 1) := by push_cast; ring
            rw [he]; exact hw
          obtain ⟨f, res, hf⟩ := ihk (cur + s) hw2
          refine ⟨f + 1, res, ?_⟩
          rw [stepLoop_skip H s f (r + 1) cur (by omega) hw1]
          exact hf
    intro cur
    obtain ⟨k, hk⟩ := hstep cur
    exact aux k cur hk

lemma stepLoop_total (H : Finset Int) (s : Int) (hs : s = 1 ∨ s = -1) :
    ∀ (r : Nat) (cur : Int), ∃ f res, stepLoop H s f r cur = some res := by
  rcases hs with rfl | rfl
  · refine stepLoop_total_aux H 1 (fun cur => ?_)
    obtain ⟨k, hk⟩ := exists_working_fwd H cur
    refine ⟨k, ?_⟩
    rwa [one_mul]
  · refine stepLoop_total_aux H (-1) (fun cur => ?_)
    obtain ⟨k, hk⟩ := exists_working_bwd H cur
    refine ⟨k, ?_⟩
    have he : cur + (-1) * ((k : Int) + 1) = cur - ((k : Int) + 1) := by ring
    rwa [he]

lemma requiredYears_neg_small (y days : Int) (h1 : -200 ≤ days) (h2 : days ≤ -1) :
    requiredYears y days = [y] := by
  unfold requiredYears intRange
  have hdiv : days / 200 = -1 := by omega
  rw [hdiv]
  have hn : (y + -1 + 2 - y).toNat = 1 := by omega
  rw [hn]
  rfl

lemma requiredYears_neg_big (y days : Int) (h : days ≤ -201) :
    requiredYears y days = [] := by
  unfold requiredYears intRange
  have hn : (y + days / 200 + 2 - y).toNat = 0 := by omega
  rw [hn]
  rfl

lemma fetchYears_single_trace {ε : Type} (provider : Int → String → Except ε (Finset Int))
    (c : String) (y : Int) : (fetchYears provider c [y]).2 = [y] := by
  unfold fetchYears
  cases provider y c <;> rfl

/-! ### Claim theorems -/

/-- C3: for every date input and every country code (present, absent or
empty), a zero offset makes `add_working_days` return exactly the normalized
input: no stepping occurs, no holiday set is consulted and no provider call
is made (the call trace is empty). -/
theorem C3_zero_offset_is_normalize {ε : Type}
    (provider : Int → String → Except ε (Finset Int))
    (parse : String → String → Option Int) (now : Int) (dF : String)
    (input : DateInput) (cc : Option String) :
    add_working_days provider parse now dF input 0 cc
      = (liftNorm (normalize parse now dF input none), []) := by
  unfold add_working_days
  rw [if_pos rfl]

/-- C8: starting from 2024-01-01 (a Monday) with an empty holiday set and no
country code, offset 5 yields 2024-01-08 (a Monday) and offset -3 yields
2023-12-27 (a Wednesday). -/
theorem C8_concrete_scenarios :
    (add_working_days cpU pnone 0 "F" (.datetime (toOrdinal 2024 1 1)) 5 none).1
        = .ok (toOrdinal 2024 1 8) ∧
    weekday (toOrdinal 2024 1 8) = 0 ∧
    (add_working_days cpU pnone 0 "F" (.datetime (toOrdinal 2024 1 1)) (-3) none).1
        = .ok (toOrdinal 2023 12 27) ∧
    weekday (toOrdinal 2023 12 27) = 2 := by
  decide

/-- C9: for every finite holiday set, every remaining count and every start
day, the day-stepping loop of `add_working_days` terminates in either
stepping direction: some fuel bound suffices and a result date is produced
(any 7 consecutive days contain a weekday beyond all finitely many holidays). -/
theorem C9_loop_terminates (H : Finset Int) (s : Int) (hs : s = 1 ∨ s = -1)
    (r : Nat) (cur : Int) :
    ∃ f res, stepLoop H s f r cur = some res :=
  stepLoop_total H s hs r cur

theorem C9_loop_terminates_witness :
    ∃ f res, stepLoop {738886} 1 f 3 738885 = some res :=
  C9_loop_terminates {738886} 1 (Or.inl rfl) 3 738885

/-- C10: for every negative offset the resolved year list never contains a
year before the reference year; offsets in [-200, -1] query exactly the
reference year; offsets at or below -201 yield an empty year list, so even
with a country code present no provider call is made, the holiday set is
empty, and backward stepping tests weekends only. -/
theorem C10_negative_offsets {ε : Type}
    (provider : Int → String → Except ε (Finset Int))
    (parse : String → String → Option Int) (now : Int) (dF : String)
    (dt days : Int) (c : String) (hc : ¬ c = "") (hneg : days < 0) :
    (∀ z ∈ requiredYears (yearOf dt) days, yearOf dt ≤ z) ∧
    (-200 ≤ days →
      requiredYears (yearOf dt) days = [yearOf dt] ∧
      (get_holiday_set provider (requiredYears (yearOf dt) days) (some c)).2
        = [yearOf dt]) ∧
    (days ≤ -201 →
      requiredYears (yearOf dt) days = [] ∧
      get_holiday_set provider (requiredYears (yearOf dt) days) (some c)
        = (.ok ∅, []) ∧
      (add_working_days provider parse now dF (.datetime dt) days (some c)).2
        = [] ∧
      (add_working_days provider parse now dF (.datetime dt) days (some c)).1
        = (match stepLoop ∅ (if days > 0 then 1 else -1) (fuelFor days ∅)
              days.natAbs dt with
            | some r => .ok r
            | none => .error .fuelExhausted)) ∧
    (∀ d, isWorking ∅ d ↔ weekday d < 5) := by
  refine ⟨?_, ?_, ?_, fun d => isWorking_empty d⟩
  · intro z hz
    unfold requiredYears at hz
    rw [intRange_mem] at hz
    exact hz.1
  · intro h2
    have hys := requiredYears_neg_small (yearOf dt) days h2 (by omega)
    refine ⟨hys, ?_⟩
    simp only [get_holiday_set]
    rw [if_neg hc, hys]
    exact fetchYears_single_trace provider c (yearOf dt)
  · intro h3
    have hys := requiredYears_neg_big (yearOf dt) days h3
    have hg : get_holiday_set provider (requiredYears (yearOf dt) days) (some c)
        = (.ok ∅, []) := by
      simp only [get_holiday_set]
      rw [if_neg hc, hys]
      rfl
    refine ⟨hys, hg, ?_, ?_⟩
    · unfold add_working_days
      rw [if_neg (by omega : ¬ days = 0)]
      simp only [normalize]
      rw [hg]
      simp only []
      cases stepLoop ∅ (if days > 0 then 1 else -1) (fuelFor days ∅)
        days.natAbs dt <;> rfl
    · unfold add_working_days
      rw [if_neg (by omega : ¬ days = 0)]
      simp only [normalize]
      rw [hg]
      simp only []
      cases stepLoop ∅ (if days > 0 then 1 else -1) (fuelFor days ∅)
        days.natAbs dt <;> rfl

theorem C10_negative_offsets_witness :
    (∀ z ∈ requiredYears (yearOf (toOrdinal 2024 1 1)) (-250),
        yearOf (toOrdinal 2024 1 1) ≤ z) ∧
    (requiredYears (yearOf (toOrdinal 2024 1 1)) (-250) = [] ∧
      get_holiday_set cpU (requiredYears (yearOf (toOrdinal 2024 1 1)) (-250))
          (some "US") = (.ok ∅, []) ∧
      (add_working_days cpU pnone 0 "F" (.datetime (toOrdinal 2024 1 1)) (-250)
          (some "US")).2 = []) := by
  have h := C10_negative_offsets cpU pnone 0 "F" (toOrdinal 2024 1 1) (-250) "US"
    (by decide) (by decide)
  obtain ⟨h1, _, h3, _⟩ := h
  have h4 := h3 (by decide)
  exact ⟨h1, h4.1, h4.2.1, h4.2.2.1⟩

/-- C4: for every non-zero offset, an absent or empty country code resolves
to the empty holiday set with no provider call, and the stepping result is
exactly the empty-set stepping outcome, in which the working-day test
degenerates to the weekday (Monday-Friday) test. -/
theorem C4_no_country_code {ε : Type}
    (provider : Int → String → Except ε (Finset Int))
    (parse : String → String → Option Int) (now : Int) (dF : String)
    (dt days : Int) (cc : Option String)
    (hcc : cc = none ∨ cc = some "") (hdays : ¬ days = 0) :
    get_holiday_set provider (requiredYears (yearOf dt) days) cc = (.ok ∅, []) ∧
    (add_working_days provider parse now dF (.datetime dt) days cc).2 = [] ∧
    (add_working_days provider parse now dF (.datetime dt) days cc).1
      = (match stepLoop ∅ (if days > 0 then 1 else -1) (fuelFor days ∅)
            days.natAbs dt with
          | some r => .ok r
          | none => .error .fuelExhausted) ∧
    (∀ d, isWorking ∅ d ↔ weekday d < 5) := by
  have hg : get_holiday_set provider (requiredYears (yearOf dt) days) cc
      = (.ok ∅, []) := by
    rcases hcc with rfl | rfl
    · rfl
    · simp [get_holiday_set]
  refine ⟨hg, ?_, ?_, fun d => isWorking_empty d⟩
  · unfold add_working_days
    rw [if_neg hdays]
    simp only [normalize]
    rw [hg]
    simp only []
    cases stepLoop ∅ (if days > 0 then 1 else -1) (fuelFor days ∅)
      days.natAbs dt <;> rfl
  · unfold add_working_days
    rw [if_neg hdays]
    simp only [normalize]
    rw [hg]
    simp only []
    cases stepLoop ∅ (if days > 0 then 1 else -1) (fuelFor days ∅)
      days.natAbs dt <;> rfl

theorem C4_no_country_code_witness :
    get_holiday_set cpU (requiredYears (yearOf (toOrdinal 2024 1 1)) 5) (some "")
        = (.ok ∅, []) ∧
    (add_working_days cpU pnone 0 "F" (.datetime (toOrdinal 2024 1 1)) 5
        (some "")).2 = [] := by
  have h := C4_no_country_code cpU pnone 0 "F" (toOrdinal 2024 1 1) 5 (some "")
    (Or.inr rfl) (by decide)
  exact ⟨h.1, h.2.1⟩

/-- C2: for every non-zero offset, every resolved holiday set and every
start date, a produced result of `add_working_days` lies strictly beyond the
start in the direction of the offset's sign, falls on a Monday-Friday
weekday, and is not a member of the resolved holiday set; in particular the
start date itself is never counted toward the offset (the result never
equals the start). -/
theorem C2_result_strictly_beyond {ε : Type}
    (provider : Int → String → Except ε (Finset Int))
    (parse : String → String → Option Int) (now : Int) (dF : String)
    (dt days : Int) (cc : Option String) (H : Finset Int) (calls : List Int)
    (r : Int) (hdays : ¬ days = 0)
    (hget : get_holiday_set provider (requiredYears (yearOf dt) days) cc
      = (.ok H, calls))
    (hok : (add_working_days provider parse now dF (.datetime dt) days cc).1
      = .ok r) :
    (0 < days → dt < r) ∧ (days < 0 → r < dt) ∧ weekday r < 5 ∧ r ∉ H ∧ r ≠ dt := by
  unfold add_working_days at hok
  rw [if_neg hdays] at hok
  simp only [normalize] at hok
  rw [hget] at hok
  simp only [] at hok
  have hrem : 1 ≤ days.natAbs := by omega
  rcases hsl : stepLoop H (if days > 0 then 1 else -1) (fuelFor days H)
      days.natAbs dt with _ | res
  · rw [hsl] at hok
    exact absurd hok (by simp)
  · rw [hsl] at hok
    simp only [] at hok
    have hres : res = r := by
      have := hok
      simp only [Except.ok.injEq] at this
      exact this
    subst hres
    have hwork := stepLoop_some_working H (if days > 0 then 1 else -1)
      (fuelFor days H) days.natAbs dt res hsl hrem
    refine ⟨?_, ?_, hwork.1, hwork.2, ?_⟩
    · intro hpos
      rw [if_pos hpos] at hsl
      exact stepLoop_some_gt H 1 one_pos (fuelFor days H) days.natAbs dt res hsl hrem
    · intro hneg
      rw [if_neg (by omega : ¬ days > 0)] at hsl
      exact stepLoop_some_lt H (-1) (by norm_num) (fuelFor days H)
        days.natAbs dt res hsl hrem
    · by_cases hpos : 0 < days
      · rw [if_pos hpos] at hsl
        have := stepLoop_some_gt H 1 one_pos (fuelFor days H) days.natAbs dt res hsl hrem
        omega
      · rw [if_neg hpos] at hsl
        have := stepLoop_some_lt H (-1) (by norm_num) (fuelFor days H)
          days.natAbs dt res hsl hrem
        omega

theorem C2_result_strictly_beyond_witness :
    ((0 : Int) < 5 → toOrdinal 2024 1 1 < toOrdinal 2024 1 8) ∧
    ((5 : Int) < 0 → toOrdinal 2024 1 8 < toOrdinal 2024 1 1) ∧
    weekday (toOrdinal 2024 1 8) < 5 ∧
    toOrdinal 2024 1 8 ∉ (∅ : Finset Int) ∧
    toOrdinal 2024 1 8 ≠ toOrdinal 2024 1 1 :=
  C2_result_strictly_beyond cpU pnone 0 "F" (toOrdinal 2024 1 1) 5 none ∅ []
    (toOrdinal 2024 1 8) (by decide) rfl (by decide)

/-- C1 (amended): for every reference date, every non-zero offset and a
present country code, with the provider succeeding on every queried year,
`add_working_days` queries the provider exactly once per year of
`range(refYear, refYear + days // 200 + 2)` — the inclusive span
`[refYear, refYear + days // 200 + 1]` computed from the signed offset by
floor division — with no year queried twice; for offset 250 these are
exactly the three years refYear, refYear+1, refYear+2. -/
theorem C1_year_span {ε : Type}
    (provider : Int → String → Except ε (Finset Int))
    (parse : String → String → Option Int) (now : Int) (dF : String)
    (dt days : Int) (c : String) (hc : ¬ c = "") (hdays : ¬ days = 0)
    (hall : ∀ y c2, ∃ hs, provider y c2 = .ok hs) :
    (add_working_days provider parse now dF (.datetime dt) days (some c)).2
      = requiredYears (yearOf dt) days ∧
    (add_working_days provider parse now dF (.datetime dt) days (some c)).2.Nodup ∧
    (∀ y, y ∈ (add_working_days provider parse now dF (.datetime dt) days
        (some c)).2 ↔ yearOf dt ≤ y ∧ y ≤ yearOf dt + days / 200 + 1) := by
  obtain ⟨H, hfe, htr⟩ := awd_trace provider parse now dF dt days c hc hdays
    (fun y _ => hall y c)
  refine ⟨htr, ?_, ?_⟩
  · rw [htr]
    exact intRange_nodup _ _
  · intro y
    rw [htr]
    unfold requiredYears
    rw [intRange_mem]
    omega

theorem C1_year_span_witness :
    (add_working_days cpU pnone 0 "F" (.datetime (toOrdinal 2024 1 1)) 250
        (some "US")).2 = requiredYears (yearOf (toOrdinal 2024 1 1)) 250 ∧
    requiredYears (yearOf (toOrdinal 2024 1 1)) 250 = [2024, 2025, 2026] := by
  have h := C1_year_span cpU pnone 0 "F" (toOrdinal 2024 1 1) 250 "US"
    (by decide) (by decide) (fun y c2 => ⟨∅, rfl⟩)
  exact ⟨h.1, by decide⟩

/-- C1 (counterexample): for offset 250 from a 2024 reference date the
engine queries the three years 2024, 2025, 2026, not the four years 2024
through 2027 that the claimed inclusive span
`[refYear, refYear + floor(|offset| / 200) + 2]` would require. -/
theorem C1_year_span_counterexample :
    (add_working_days cpU pnone 0 "F" (.datetime (toOrdinal 2024 1 1)) 250
        (some "US")).2 = [2024, 2025, 2026] ∧
    (add_working_days cpU pnone 0 "F" (.datetime (toOrdinal 2024 1 1)) 250
        (some "US")).2 ≠ [2024, 2025, 2026, 2027] := by
  obtain ⟨H, hfe, htr⟩ := awd_trace cpU pnone 0 "F" (toOrdinal 2024 1 1) 250 "US"
    (by decide) (by decide) (fun y _ => ⟨∅, rfl⟩)
  rw [htr]
  exact ⟨by decide, by decide⟩

/-- C6: if the provider fails on a year of the resolved span after
succeeding on the years before it, `add_working_days` raises that same error
unchanged: the call trace shows one call per year up to and including the
failing one (no retry, no partial-year fallback), and no stepping result is
produced (already-fetched years are discarded). -/
theorem C6_provider_error_propagates {ε : Type}
    (provider : Int → String → Except ε (Finset Int))
    (parse : String → String → Option Int) (now : Int) (dF : String)
    (dt days : Int) (c : String) (e : ε) (pre post : List Int) (y0 : Int)
    (hc : ¬ c = "") (hdays : ¬ days = 0)
    (hspan : requiredYears (yearOf dt) days = pre ++ y0 :: post)
    (hpre : ∀ y ∈ pre, ∃ hs, provider y c = .ok hs)
    (herr : provider y0 c = .error e) :
    add_working_days provider parse now dF (.datetime dt) days (some c)
      = (.error (.providerError e), pre ++ [y0]) := by
  have hfe := fetchYears_err provider c y0 e post herr pre hpre
  unfold add_working_days
  rw [if_neg hdays]
  simp only [normalize, get_holiday_set]
  rw [if_neg hc, hspan, hfe]

theorem C6_provider_error_propagates_witness :
    add_working_days cpFail pnone 0 "F" (.datetime (toOrdinal 2024 1 1)) 250
        (some "US") = (.error (.providerError "boom"), [2024, 2025]) := by
  have h := C6_provider_error_propagates cpFail pnone 0 "F" (toOrdinal 2024 1 1)
    250 "US" "boom" [2024] [2026] 2025 (by decide) (by decide) (by decide)
    (fun y hy => by
      rw [List.mem_singleton] at hy
      subst hy
      exact ⟨∅, rfl⟩)
    rfl
  exact h

/-- C5 (counterexample): starting from Saturday 2024-01-06 with no country
code, one working day forward lands on Monday 2024-01-08, and one working
day back from there lands on Friday 2024-01-05, not the original Saturday:
the forward/backward roundtrip does not return a weekend start date. -/
theorem C5_roundtrip_counterexample :
    (add_working_days cpU pnone 0 "F" (.datetime (toOrdinal 2024 1 6)) 1 none).1
        = .ok (toOrdinal 2024 1 8) ∧
    (add_working_days cpU pnone 0 "F" (.datetime (toOrdinal 2024 1 8)) (-1) none).1
        = .ok (toOrdinal 2024 1 5) ∧
    toOrdinal 2024 1 5 ≠ toOrdinal 2024 1 6 := by
  decide

/-- C5 (amended): for every start date that is itself a weekday (Monday to
Friday) and every integer offset n, with no country code and hence an empty
holiday set, `add_working_days` by n followed by `add_working_days` by -n
returns the original date. -/
theorem C5_roundtrip_weekday {ε : Type}
    (provider : Int → String → Except ε (Finset Int))
    (parse : String → String → Option Int) (now : Int) (dF : String)
    (dt n : Int) (h : weekday dt < 5) :
    ∃ r, (add_working_days provider parse now dF (.datetime dt) n none).1
        = .ok r ∧
      (add_working_days provider parse now dF (.datetime r) (-n) none).1
        = .ok dt := by
  rcases lt_trichotomy n 0 with hn | rfl | hn
  · refine ⟨prevWIter n.natAbs dt, ?_, ?_⟩
    · rw [awd_none_neg provider parse now dF dt n hn]
    · rw [awd_none_pos provider parse now dF _ (-n) (by omega)]
      show Except.ok (nextWIter (-n).natAbs (prevWIter n.natAbs dt)) = _
      rw [Int.natAbs_neg,
        show nextWIter n.natAbs (prevWIter n.natAbs dt) = dt from
          nextWIter_prevWIter dt h n.natAbs]
  · refine ⟨dt, ?_, ?_⟩
    · exact rfl
    · rw [neg_zero]
      exact rfl
  · refine ⟨nextWIter n.natAbs dt, ?_, ?_⟩
    · rw [awd_none_pos provider parse now dF dt n hn]
    · rw [awd_none_neg provider parse now dF _ (-n) (by omega)]
      show Except.ok (prevWIter (-n).natAbs (nextWIter n.natAbs dt)) = _
      rw [Int.natAbs_neg,
        show prevWIter n.natAbs (nextWIter n.natAbs dt) = dt from
          prevWIter_nextWIter dt h n.natAbs]

theorem C5_roundtrip_weekday_witness :
    weekday (toOrdinal 2024 1 1) < 5 ∧
    ∃ r, (add_working_days cpU pnone 0 "F" (.datetime (toOrdinal 2024 1 1))
        5 none).1 = .ok r ∧
      (add_working_days cpU pnone 0 "F" (.datetime r) (-5) none).1
        = .ok (toOrdinal 2024 1 1) :=
  ⟨by decide, C5_roundtrip_weekday cpU pnone 0 "F" (toOrdinal 2024 1 1) 5 (by decide)⟩

lemma parseErrMsg_contains_str (s f : String) :
    ∃ a b, parseErrMsg s f = a ++ s ++ b := by
  refine ⟨"Could not parse " ++ sq, sq ++ " with format " ++ sq ++ f ++ sq, ?_⟩
  unfold parseErrMsg
  simp only [String.append_assoc]

lemma parseErrMsg_contains_format (s f : String) :
    ∃ a b, parseErrMsg s f = a ++ f ++ b := by
  refine ⟨"Could not parse " ++ sq ++ s ++ sq ++ " with format " ++ sq, sq, ?_⟩
  unfold parseErrMsg
  simp only [String.append_assoc]

/-- C7: `normalize` raises a `DateOperationError` whose message contains the
offending string and the format attempted exactly when the input is a string
that fails to parse against the chosen format (the explicit non-empty
format, else the configured default); it raises a `TypeError` — a distinct
error — exactly when the input is of an unsupported type; a `None` input
returns the current moment, and `date`/`datetime` inputs never raise. -/
theorem C7_normalize_errors (parse : String → String → Option Int) (now : Int)
    (dF : String) (input : DateInput) (fmt : Option String) :
    ((∃ m, normalize parse now dF input fmt = .error (.dateOperationError m)) ↔
      (∃ s, input = .str s ∧ parse s (chosenFormat fmt dF) = none)) ∧
    (∀ s, input = .str s → parse s (chosenFormat fmt dF) = none →
      normalize parse now dF input fmt
          = .error (.dateOperationError (parseErrMsg s (chosenFormat fmt dF))) ∧
        (∃ a b, parseErrMsg s (chosenFormat fmt dF) = a ++ s ++ b) ∧
        (∃ a b, parseErrMsg s (chosenFormat fmt dF)
          = a ++ chosenFormat fmt dF ++ b)) ∧
    ((∃ m, normalize parse now dF input fmt = .error (.typeError m)) ↔
      (∃ t, input = .unsupported t)) ∧
    (input = .null → normalize parse now dF input fmt = .ok now) ∧
    (∀ o, input = .datetime o → normalize parse now dF input fmt = .ok o) ∧
    (∀ o, input = .date o → normalize parse now dF input fmt = .ok o) := by
  cases input with
  | null => simp [normalize]
  | datetime o => simp [normalize]
  | date o => simp [normalize]
  | unsupported t => simp [normalize]
  | str s =>
    rcases hp : parse s (chosenFormat fmt dF) with _ | o
    · refine ⟨?_, ?_, ?_, ?_, ?_, ?_⟩
      · simp [normalize, hp]
      · intro s2 heq hp2
        injection heq with h2
        subst h2
        exact ⟨by simp [normalize, hp], parseErrMsg_contains_str _ _,
          parseErrMsg_contains_format _ _⟩
      · simp [normalize, hp]
      · simp
      · simp
      · simp
    · refine ⟨?_, ?_, ?_, ?_, ?_, ?_⟩
      · simp [normalize, hp]
      · intro s2 heq hp2
        injection heq with h2
        subst h2
        rw [hp] at hp2
        exact absurd hp2 (by simp)
      · simp [normalize, hp]
      · simp
      · simp
      · simp

theorem C7_normalize_errors_witness :
    normalize pnone 0 "F" (.str "x") none
        = .error (.dateOperationError (parseErrMsg "x" (chosenFormat none "F"))) ∧
    (∃ a b, parseErrMsg "x" (chosenFormat none "F") = a ++ "x" ++ b) ∧
    (∃ a b, parseErrMsg "x" (chosenFormat none "F")
      = a ++ chosenFormat none "F" ++ b) := by
  have h := (C7_normalize_errors pnone 0 "F" (.str "x") none).2.1 "x" rfl rfl
  exact ⟨h.1, h.2.1, h.2.2⟩
